import Mathlib

/-!
Shallow embedding of the networking core of the Multiplayer repository
(src/client.rs), together with proofs of the specification claims.

The wire codec (write_message / read_message in src/client.rs) frames a
serde-serialized payload with an 8-byte big-endian length prefix.  The payload
serialization is performed by the external ciborium crate (CBOR):
unit enum variants are encoded as a text string holding the variant name,
newtype and tuple variants as a one-entry map from the variant name to the
payload (tuple variants wrap their fields in an array), structs as a map from
field-name text strings to field values, uuid::Uuid as a 16-byte byte string
(ciborium is a non-human-readable format), and f32 fields as IEEE-754 bit
patterns under CBOR major type 7.  We model bytes as Fin 256, f32 fields as
their 32-bit patterns, and fix the single-precision width for floats
(ciborium may narrow a float to a smaller width when that is lossless, which
changes neither decodability nor the decoded value).  The decoders model the
serde-derived deserializers on the canonical encodings produced here.
-/

namespace Multiplayer

/-- A byte of the wire stream. -/
abbrev Byte := Fin 256

/-- Build a byte from a numeric literal. -/
def mkByte (n : Nat) : Byte := ⟨n % 256, Nat.mod_lt n (by norm_num)⟩

/-- Model of AsyncReadExt::read_exact on a finite stream: take exactly n bytes,
returning them and the rest of the stream, or fail if the stream is shorter. -/
def take? (n : Nat) (s : List Byte) : Option (List Byte × List Byte) :=
  if n ≤ s.length then some (s.take n, s.drop n) else none

/-- Big-endian byte representation of a natural number in a fixed width,
modelling u64::to_be_bytes and the fixed-width integer fields of the payload. -/
def natToBytesBE : Nat → Nat → List Byte
  | 0, _ => []
  | w + 1, n => natToBytesBE w (n / 256) ++ [mkByte n]

/-- Big-endian value of a byte list, modelling u64::from_be_bytes. -/
def bytesToNatBE (l : List Byte) : Nat :=
  l.foldl (fun a b => a * 256 + b.val) 0

/-- The bit pattern of an f32 value (position, color and radius components of
Circle).  The codec transports the bits; we never interpret them numerically. -/
abbrev F32 := Fin (2 ^ 32)

/-- Build an f32 bit pattern from a natural number. -/
def mkF32 (n : Nat) : F32 := ⟨n % 2 ^ 32, Nat.mod_lt n (by norm_num)⟩

/-- uuid::Uuid: a 128-bit token.  Uuid::new_v4 freshness is modelled as a
hypothesis on the relay transition system below. -/
abbrev Uuid := Fin (2 ^ 128)

/-- Build a Uuid from a natural number. -/
def mkUuid (n : Nat) : Uuid := ⟨n % 2 ^ 128, Nat.mod_lt n (by norm_num)⟩

/-- cgmath::Vector2 of f32, as serialized by its derived serde instance
(a struct with fields x, y). -/
structure Vector2 where
  x : F32
  y : F32
deriving DecidableEq

/-- cgmath::Vector3 of f32 (fields x, y, z). -/
structure Vector3 where
  x : F32
  y : F32
  z : F32
deriving DecidableEq

/-- Circle from src/client.rs: position, color, radius. -/
structure Circle where
  position : Vector2
  color : Vector3
  radius : F32
deriving DecidableEq

/-- ClientToServerMessage from src/client.rs. -/
inductive ClientToServerMessage
  | Disconnect
  | Ping
  | PlayerChanged (circle : Circle)
deriving DecidableEq

/-- ServerToClientMessage from src/client.rs. -/
inductive ServerToClientMessage
  | Handshake (uuid : Uuid)
  | ClientConnected (uuid : Uuid)
  | ClientDisconnected (uuid : Uuid)
  | Ping
  | PlayerChanged (uuid : Uuid) (circle : Circle)
deriving DecidableEq

/-- UTF-8 bytes of an (ASCII) variant or field name. -/
def str (s : String) : List Byte := s.toList.map (fun c => mkByte c.toNat)

/-- CBOR text string (short form, length < 24): header byte 0x60+len, then the
bytes.  All variant and field names of this protocol are shorter than 24. -/
def cborText (name : List Byte) : List Byte := mkByte (0x60 + name.length) :: name

/-- CBOR encoding of an f32: major type 7, single precision (0xfa), 4 bytes. -/
def cborF32 (x : F32) : List Byte := mkByte 0xfa :: natToBytesBE 4 x.val

/-- CBOR encoding of a Uuid: byte string of length 16 (header 0x50). -/
def cborUuid (u : Uuid) : List Byte := mkByte 0x50 :: natToBytesBE 16 u.val

/-- CBOR encoding of Vector2: map of 2 entries x, y. -/
def cborVector2 (v : Vector2) : List Byte :=
  mkByte 0xa2 :: (cborText (str "x") ++ cborF32 v.x ++ cborText (str "y") ++ cborF32 v.y)

/-- CBOR encoding of Vector3: map of 3 entries x, y, z. -/
def cborVector3 (v : Vector3) : List Byte :=
  mkByte 0xa3 :: (cborText (str "x") ++ cborF32 v.x ++ cborText (str "y") ++ cborF32 v.y
    ++ cborText (str "z") ++ cborF32 v.z)

/-- CBOR encoding of Circle: map of 3 entries position, color, radius. -/
def cborCircle (c : Circle) : List Byte :=
  mkByte 0xa3 :: (cborText (str "position") ++ cborVector2 c.position
    ++ cborText (str "color") ++ cborVector3 c.color
    ++ cborText (str "radius") ++ cborF32 c.radius)

/-- Payload bytes of a ClientToServerMessage, modelling
ciborium::into_writer with the derived Serialize instance. -/
def serializeC2S : ClientToServerMessage → List Byte
  | .Disconnect => cborText (str "Disconnect")
  | .Ping => cborText (str "Ping")
  | .PlayerChanged c => mkByte 0xa1 :: (cborText (str "PlayerChanged") ++ cborCircle c)

/-- Payload bytes of a ServerToClientMessage, modelling
ciborium::into_writer with the derived Serialize instance. -/
def serializeS2C : ServerToClientMessage → List Byte
  | .Handshake u => mkByte 0xa1 :: (cborText (str "Handshake") ++ cborUuid u)
  | .ClientConnected u => mkByte 0xa1 :: (cborText (str "ClientConnected") ++ cborUuid u)
  | .ClientDisconnected u =>
      mkByte 0xa1 :: (cborText (str "ClientDisconnected") ++ cborUuid u)
  | .Ping => cborText (str "Ping")
  | .PlayerChanged u c =>
      mkByte 0xa1 :: (cborText (str "PlayerChanged")
        ++ (mkByte 0x82 :: (cborUuid u ++ cborCircle c)))

/-- Parse a CBOR short-form text string, returning its bytes and the rest. -/
def parseText (s : List Byte) : Option (List Byte × List Byte) :=
  match s with
  | [] => none
  | b :: t => if 0x60 ≤ b.val ∧ b.val < 0x78 then take? (b.val - 0x60) t else none

/-- Expect one specific byte at the head of the stream. -/
def expectByte (v : Nat) (s : List Byte) : Option (List Byte) :=
  match s with
  | [] => none
  | b :: t => if b.val = v then some t else none

/-- Parse a map key and require it to be the given name. -/
def parseKeyText (name : List Byte) (s : List Byte) : Option (List Byte) := do
  let (n, t) ← parseText s
  if n = name then some t else none

/-- Parse a CBOR single-precision float into its bit pattern. -/
def parseF32 (s : List Byte) : Option (F32 × List Byte) := do
  let t ← expectByte 0xfa s
  let (bs, t) ← take? 4 t
  pure (mkF32 (bytesToNatBE bs), t)

/-- Parse a CBOR 16-byte byte string into a Uuid. -/
def parseUuid (s : List Byte) : Option (Uuid × List Byte) := do
  let t ← expectByte 0x50 s
  let (bs, t) ← take? 16 t
  pure (mkUuid (bytesToNatBE bs), t)

/-- Parse a Vector2 (canonical field order x, y). -/
def parseVector2 (s : List Byte) : Option (Vector2 × List Byte) := do
  let t ← expectByte 0xa2 s
  let t ← parseKeyText (str "x") t
  let (vx, t) ← parseF32 t
  let t ← parseKeyText (str "y") t
  let (vy, t) ← parseF32 t
  pure (⟨vx, vy⟩, t)

/-- Parse a Vector3 (canonical field order x, y, z). -/
def parseVector3 (s : List Byte) : Option (Vector3 × List Byte) := do
  let t ← expectByte 0xa3 s
  let t ← parseKeyText (str "x") t
  let (vx, t) ← parseF32 t
  let t ← parseKeyText (str "y") t
  let (vy, t) ← parseF32 t
  let t ← parseKeyText (str "z") t
  let (vz, t) ← parseF32 t
  pure (⟨vx, vy, vz⟩, t)

/-- Parse a Circle (canonical field order position, color, radius). -/
def parseCircle (s : List Byte) : Option (Circle × List Byte) := do
  let t ← expectByte 0xa3 s
  let t ← parseKeyText (str "position") t
  let (pos, t) ← parseVector2 t
  let t ← parseKeyText (str "color") t
  let (col, t) ← parseVector3 t
  let t ← parseKeyText (str "radius") t
  let (r, t) ← parseF32 t
  pure (⟨pos, col, r⟩, t)

/-- Deserialize a ClientToServerMessage payload, modelling ciborium::from_reader
with the derived Deserialize instance on canonical encodings: a text item is a
unit variant name, a one-entry map selects a data-carrying variant. -/
def deserializeC2S (s : List Byte) : Option (ClientToServerMessage × List Byte) :=
  match s with
  | [] => none
  | b :: t =>
    if 0x60 ≤ b.val ∧ b.val < 0x78 then do
      let (name, rest) ← parseText (b :: t)
      if name = str "Disconnect" then pure (.Disconnect, rest)
      else if name = str "Ping" then pure (.Ping, rest)
      else none
    else if b.val = 0xa1 then do
      let (name, rest) ← parseText t
      if name = str "PlayerChanged" then do
        let (c, rest) ← parseCircle rest
        pure (.PlayerChanged c, rest)
      else none
    else none

/-- Deserialize a ServerToClientMessage payload, modelling ciborium::from_reader
with the derived Deserialize instance on canonical encodings. -/
def deserializeS2C (s : List Byte) : Option (ServerToClientMessage × List Byte) :=
  match s with
  | [] => none
  | b :: t =>
    if 0x60 ≤ b.val ∧ b.val < 0x78 then do
      let (name, rest) ← parseText (b :: t)
      if name = str "Ping" then pure (.Ping, rest)
      else none
    else if b.val = 0xa1 then do
      let (name, rest) ← parseText t
      if name = str "Handshake" then do
        let (u, rest) ← parseUuid rest
        pure (.Handshake u, rest)
      else if name = str "ClientConnected" then do
        let (u, rest) ← parseUuid rest
        pure (.ClientConnected u, rest)
      else if name = str "ClientDisconnected" then do
        let (u, rest) ← parseUuid rest
        pure (.ClientDisconnected u, rest)
      else if name = str "PlayerChanged" then do
        let rest ← expectByte 0x82 rest
        let (u, rest) ← parseUuid rest
        let (c, rest) ← parseCircle rest
        pure (.PlayerChanged u c, rest)
      else none
    else none

/-- Errors of read_message.  read_exact reaching end of stream is the spec's
TruncatedStream; a payload the deserializer rejects is MalformedPayload. -/
inductive ReadError
  | truncated
  | malformed
deriving DecidableEq

/-- write_message from src/client.rs, generic over the payload serializer as the
source is generic over T: Serialize.  Serializes the payload, converts its
length to u64 (failing if it does not fit, the try_into in the source), and
emits the 8-byte big-endian length prefix followed by the payload. -/
def write_message (enc : α → List Byte) (message : α) : Option (List Byte) :=
  let bytes := enc message
  if bytes.length < 2 ^ 64 then some (natToBytesBE 8 bytes.length ++ bytes) else none

/-- read_message from src/client.rs, generic over the payload deserializer:
read exactly 8 bytes, interpret them as a big-endian length, read exactly that
many payload bytes, then deserialize the payload (trailing payload bytes are
ignored, as ciborium::from_reader reads a single item). -/
def read_message (dec : List Byte → Option (α × List Byte)) (s : List Byte) :
    Except ReadError (α × List Byte) :=
  match take? 8 s with
  | none => .error .truncated
  | some (lengthBytes, rest) =>
    match take? (bytesToNatBE lengthBytes) rest with
    | none => .error .truncated
    | some (payload, rest2) =>
      match dec payload with
      | some (m, _) => .ok (m, rest2)
      | none => .error .malformed

/-- write_message instantiated at ClientToServerMessage. -/
def writeC2S : ClientToServerMessage → Option (List Byte) :=
  write_message serializeC2S

/-- read_message instantiated at ClientToServerMessage. -/
def readC2S : List Byte → Except ReadError (ClientToServerMessage × List Byte) :=
  read_message deserializeC2S

/-- write_message instantiated at ServerToClientMessage. -/
def writeS2C : ServerToClientMessage → Option (List Byte) :=
  write_message serializeS2C

/-- read_message instantiated at ServerToClientMessage. -/
def readS2C : List Byte → Except ReadError (ServerToClientMessage × List Byte) :=
  read_message deserializeS2C

/-!
Relay registry model (the task spawned by Client::create_local).

The registry is the HashMap from Uuid to that peer's outbound
UnboundedSender; we model it as a function from Uuid to the optional list of
messages currently queued for that peer (the queue behind the sender).  HashMap
iteration in a broadcast touches each entry once, independently, so the
pointwise function model is faithful for per-peer queue contents.
-/

/-- The relay registry: each registered peer's pending outbound queue. -/
abbrev Registry := Uuid → Option (List ServerToClientMessage)

/-- Broadcast a message: for each registered entry, enqueue the message on its
queue (the for client in clients.values() loops in src/client.rs). -/
def broadcast (message : ServerToClientMessage) (clients : Registry) : Registry :=
  fun id => (clients id).map (fun queue => queue ++ [message])

/-- handle_message from src/client.rs: dispatch one control message, tagged
with the uuid the relay paired with its originating connection. -/
def handle_message (message : ClientToServerMessage) (uuid : Uuid)
    (clients : Registry) : Registry :=
  match message with
  | .Disconnect =>
      broadcast (.ClientDisconnected uuid) (fun id => if id = uuid then none else clients id)
  | .Ping => clients
  | .PlayerChanged c => broadcast (.PlayerChanged uuid c) clients

/-- State of the relay event loop: the registry, plus the uuid the relay
assigned to its own embedded local peer (the uuid bound at line 55 of
src/client.rs, in scope for the whole relay task). -/
structure RelayState where
  localUuid : Uuid
  clients : Registry

/-- The precondition of the from_clients_messages branch of the relay's
select loop.  In tokio::select!, a branch's if precondition is evaluated
before the branch's pattern is bound, so pattern variables are not in scope
there: the uuid in `if clients.contains_key(&uuid)` is the enclosing local-peer
uuid of create_local, not the uuid carried by the received message. -/
def inboxGuard (st : RelayState) : Bool :=
  (st.clients st.localUuid).isSome

/-- One firing of the relay loop's inbox branch with a received
(message, sender) pair: if the guard enables the branch, handle_message runs;
otherwise the branch is disabled and nothing is dispatched. -/
def inboxStep (st : RelayState) (message : ClientToServerMessage) (sender : Uuid) :
    RelayState :=
  if inboxGuard st then { st with clients := handle_message message sender st.clients }
  else st

/-- One firing of the relay loop's accept branch (lines 134-143 of
src/client.rs): create a fresh queue pair, assign a fresh uuid, enqueue
Handshake(uuid) on the new queue, insert the entry into the registry, then
broadcast ClientConnected(uuid) over the now-updated registry. -/
def acceptStep (st : RelayState) (fresh : Uuid) : RelayState :=
  let withNew : Registry :=
    fun id => if id = fresh then some [.Handshake fresh] else st.clients id
  { st with clients := broadcast (.ClientConnected fresh) withNew }

/-- One firing of the relay loop's heartbeat branch: broadcast Ping. -/
def tickStep (st : RelayState) : RelayState :=
  { st with clients := broadcast .Ping st.clients }

/-- Initial relay state (lines 55-66 of src/client.rs): the local peer is
registered with Handshake and ClientConnected already queued for it. -/
def initState (u0 : Uuid) : RelayState :=
  { localUuid := u0
    clients := fun id =>
      if id = u0 then some [.Handshake u0, .ClientConnected u0] else none }

/-- One transition of the relay event loop, paired with the ghost log of all
uuids ever assigned, in assignment order.  Uuid::new_v4 never repeating is
modelled by the freshness hypothesis on the accept transition. -/
inductive RelayStep : RelayState × List Uuid → RelayState × List Uuid → Prop
  | accept (st : RelayState) (log : List Uuid) (fresh : Uuid) (h : fresh ∉ log) :
      RelayStep (st, log) (acceptStep st fresh, log ++ [fresh])
  | inbox (st : RelayState) (log : List Uuid) (message : ClientToServerMessage)
      (sender : Uuid) : RelayStep (st, log) (inboxStep st message sender, log)
  | tick (st : RelayState) (log : List Uuid) : RelayStep (st, log) (tickStep st, log)

/-- Reachability of a relay state from the initial state. -/
def RelayReach (u0 : Uuid) (x : RelayState × List Uuid) : Prop :=
  Relation.ReflTransGen RelayStep (initState u0, [u0]) x

/-!
Client facade model.

The facade's inbound side is the UnboundedReceiver from_server_messages: a FIFO
buffer of messages, plus the flag of whether every sender has been dropped
(permanent teardown). -/

/-- tokio's TryRecvError. -/
inductive TryRecvError
  | Empty
  | Disconnected
deriving DecidableEq

/-- The Disconnected error type from src/client.rs. -/
inductive Disconnected
  | mk
deriving DecidableEq

/-- The state of the facade's inbound channel. -/
structure InboundChannel where
  buffer : List ServerToClientMessage
  closed : Bool
deriving DecidableEq

/-- UnboundedReceiver::try_recv: a buffered message is returned even when the
channel is already closed; Disconnected is reported only on an empty, closed
channel; Empty on an empty, open channel. -/
def try_recv (c : InboundChannel) :
    Except TryRecvError ServerToClientMessage × InboundChannel :=
  match c.buffer with
  | m :: rest => (.ok m, { c with buffer := rest })
  | [] => (.error (if c.closed then .Disconnected else .Empty), c)

/-- Client::get_message from src/client.rs: map try_recv's outcome onto
Option (Result ...). -/
def get_message (c : InboundChannel) :
    Option (Except Disconnected ServerToClientMessage) × InboundChannel :=
  match try_recv c with
  | (.ok m, c2) => (some (.ok m), c2)
  | (.error .Disconnected, c2) => (some (.error .mk), c2)
  | (.error .Empty, c2) => (none, c2)

/-- Errors of Client::connect's handshake phase: a failed first read, or a
first message that is not a Handshake (the bail! at line 217). -/
inductive ConnectError
  | readError (e : ReadError)
  | notHandshake
deriving DecidableEq

/-- The handshake phase of Client::connect (lines 215-218 of src/client.rs):
read exactly one frame from the connected stream and require it to be
Handshake(uuid); only then is a Client value produced (carrying that uuid). -/
def connect_handshake (stream : List Byte) : Except ConnectError Uuid :=
  match readS2C stream with
  | .error e => .error (.readError e)
  | .ok (.Handshake uuid, _) => .ok uuid
  | .ok (_, _) => .error .notHandshake

/-- Client::send_message: pair the message with the facade's own uuid and
enqueue the pair on to_server_messages. -/
def send_message (selfUuid : Uuid) (message : ClientToServerMessage) :
    ClientToServerMessage × Uuid :=
  (message, selfUuid)

/-- The frame write_message produces for a ClientToServerMessage (total form;
write_message never hits its length failure for these payloads, see
writeC2S_eq_frameC2S). -/
def frameC2S (m : ClientToServerMessage) : List Byte :=
  natToBytesBE 8 (serializeC2S m).length ++ serializeC2S m

/-- The wire bytes produced by the remote-role connection pump (the
handle_client of Client::connect) for a queue of (message, uuid) pairs: the
pump destructures each pair as (message, _), discarding the uuid before
writing, so only the message reaches write_message. -/
def remote_pump_wire (queue : List (ClientToServerMessage × Uuid)) : List Byte :=
  (queue.map (fun p => frameC2S p.1)).flatten

/-- Length of the remaining stream strictly decreases across a successful
read_message (it consumes the 8 length bytes and the payload). -/
theorem read_message_rest_length_lt {α : Type}
    (dec : List Byte → Option (α × List Byte)) (s : List Byte) (m : α)
    (rest : List Byte) (h : read_message dec s = .ok (m, rest)) :
    rest.length < s.length := by
  unfold read_message at h
  unfold take? at h
  split at h
  · exact absurd h (by simp)
  next lengthBytes rest1 heq =>
    split at h
    · exact absurd h (by simp)
    next payload rest2 heq2 =>
      split at h
      next m2 trail hdec =>
        have hrr : rest2 = rest := by
          simp only [Except.ok.injEq, Prod.mk.injEq] at h
          exact h.2
        have h8 : 8 ≤ s.length := by
          by_contra hc
          simp [hc] at heq
        have hr1 : rest1 = s.drop 8 := by
          by_cases hc : 8 ≤ s.length
          · simp [hc] at heq
            exact heq.2.symm
          · simp [hc] at heq
        have hr2 : rest2.length ≤ rest1.length := by
          by_cases hc : bytesToNatBE lengthBytes ≤ rest1.length
          · simp [hc] at heq2
            rw [← heq2.2]
            simp
          · simp [hc] at heq2
        calc rest.length = rest2.length := by rw [hrr]
          _ ≤ rest1.length := hr2
          _ = s.length - 8 := by rw [hr1]; simp
          _ < s.length := by omega
      · exact absurd h (by simp)

/-- The relay-side connection pump (the handle_client inside create_local):
repeatedly read_message a ClientToServerMessage from the stream and forward it
to the relay inbox paired with the uuid the relay assigned to this connection
(line 92 of src/client.rs); stop on the first read error. -/
def server_pump_forward (assigned : Uuid) (s : List Byte) :
    List (ClientToServerMessage × Uuid) :=
  match h : readC2S s with
  | .ok (m, rest) => (m, assigned) :: server_pump_forward assigned rest
  | .error _ => []
termination_by s.length
decreasing_by exact read_message_rest_length_lt deserializeC2S s m rest h

/-! Arithmetic facts about the big-endian byte codec. -/

theorem length_natToBytesBE (w n : Nat) : (natToBytesBE w n).length = w := by
  induction w generalizing n with
  | zero => rfl
  | succ w ih => simp [natToBytesBE, ih]

theorem bytesToNatBE_append (l1 l2 : List Byte) :
    bytesToNatBE (l1 ++ l2) = bytesToNatBE l1 * 256 ^ l2.length + bytesToNatBE l2 := by
  induction l2 using List.reverseRecOn generalizing l1 with
  | nil => simp [bytesToNatBE]
  | append_singleton t b ih =>
    have h1 : l1 ++ (t ++ [b]) = (l1 ++ t) ++ [b] := by simp
    have hfold : ∀ l : List Byte, bytesToNatBE (l ++ [b]) = bytesToNatBE l * 256 + b.val := by
      intro l
      simp [bytesToNatBE, List.foldl_append]
    rw [h1, hfold, hfold, ih]
    ring_nf
    simp [pow_succ]
    ring

theorem bytesToNatBE_natToBytesBE (w n : Nat) :
    bytesToNatBE (natToBytesBE w n) = n % 256 ^ w := by
  induction w generalizing n with
  | zero => simp [natToBytesBE, bytesToNatBE, Nat.mod_one]
  | succ w ih =>
    have hsplit : bytesToNatBE (natToBytesBE w (n / 256) ++ [mkByte n]) =
        bytesToNatBE (natToBytesBE w (n / 256)) * 256 + n % 256 := by
      simp [bytesToNatBE_append, bytesToNatBE, mkByte]
    have hmod : n % 256 ^ (w + 1) = (n / 256 % 256 ^ w) * 256 + n % 256 := by
      conv_lhs => rw [← Nat.div_add_mod n 256]
      have hpow : (256 : Nat) ^ (w + 1) = 256 * 256 ^ w := by ring
      rw [hpow]
      rw [Nat.add_mod, Nat.mul_mod_mul_left]
      have hlt : 256 * (n / 256 % 256 ^ w) + n % 256 % (256 * 256 ^ w) < 256 * 256 ^ w := by
        have h1 : n / 256 % 256 ^ w < 256 ^ w := Nat.mod_lt _ (Nat.pos_pow_of_pos w (by norm_num))
        have h2 : n % 256 < 256 := Nat.mod_lt _ (by norm_num)
        have h3 : n % 256 % (256 * 256 ^ w) ≤ n % 256 := Nat.mod_le _ _
        have h4 : 256 * (n / 256 % 256 ^ w) ≤ 256 * (256 ^ w - 1) := by
          apply Nat.mul_le_mul_left
          omega
        have h5 : (0:Nat) < 256 ^ w := Nat.pos_pow_of_pos w (by norm_num)
        calc 256 * (n / 256 % 256 ^ w) + n % 256 % (256 * 256 ^ w)
            ≤ 256 * (256 ^ w - 1) + n % 256 := by omega
          _ < 256 * 256 ^ w := by omega
      rw [Nat.mod_eq_of_lt hlt]
      have : n % 256 % (256 * 256 ^ w) = n % 256 := by
        apply Nat.mod_eq_of_lt
        have h5 : (0:Nat) < 256 ^ w := Nat.pos_pow_of_pos w (by norm_num)
        have h2 : n % 256 < 256 := Nat.mod_lt _ (by norm_num)
        calc n % 256 < 256 := h2
          _ ≤ 256 * 256 ^ w := by nlinarith
      rw [this]
      ring
    rw [natToBytesBE, hsplit, ih, hmod]

theorem bytesToNatBE_roundtrip (w n : Nat) (h : n < 256 ^ w) :
    bytesToNatBE (natToBytesBE w n) = n := by
  rw [bytesToNatBE_natToBytesBE, Nat.mod_eq_of_lt h]

theorem bytesToNatBE_lt (l : List Byte) : bytesToNatBE l < 256 ^ l.length := by
  induction l using List.reverseRecOn with
  | nil => simp [bytesToNatBE]
  | append_singleton t b ih =>
    have hfold : bytesToNatBE (t ++ [b]) = bytesToNatBE t * 256 + b.val := by
      simp [bytesToNatBE, List.foldl_append]
    rw [hfold]
    have hb : b.val < 256 := b.isLt
    have := ih
    calc bytesToNatBE t * 256 + b.val < bytesToNatBE t * 256 + 256 := by omega
      _ = (bytesToNatBE t + 1) * 256 := by ring
      _ ≤ 256 ^ t.length * 256 := by
          apply Nat.mul_le_mul_right
          omega
      _ = 256 ^ (t ++ [b]).length := by simp [pow_succ]

/-! take? lemmas. -/

theorem take?_append (n : Nat) (l r : List Byte) (h : l.length = n) :
    take? n (l ++ r) = some (l, r) := by
  subst h
  simp [take?, List.take_left, List.drop_left]

theorem take?_short (n : Nat) (s : List Byte) (h : s.length < n) :
    take? n s = none := by
  simp [take?]
  omega

/-! Parser inversion lemmas: each parser applied to the corresponding encoder's
output (followed by any rest of the stream) returns the encoded value and the
rest. -/

theorem parseText_cborText (name : List Byte) (rest : List Byte)
    (h : name.length < 24) :
    parseText (cborText name ++ rest) = some (name, rest) := by
  have hv : (mkByte (0x60 + name.length)).val = 0x60 + name.length := by
    simp [mkByte]
    omega
  simp only [cborText, List.cons_append, parseText, hv]
  rw [if_pos (by omega)]
  have : 0x60 + name.length - 0x60 = name.length := by omega
  rw [this]
  exact take?_append _ _ _ rfl

theorem parseKeyText_cborText (name : List Byte) (rest : List Byte)
    (h : name.length < 24) :
    parseKeyText name (cborText name ++ rest) = some rest := by
  simp [parseKeyText, parseText_cborText name rest h]

theorem expectByte_mkByte (v : Nat) (t : List Byte) (h : v < 256) :
    expectByte v (mkByte v :: t) = some t := by
  simp [expectByte, mkByte, Nat.mod_eq_of_lt h]

theorem parseF32_cborF32 (x : F32) (rest : List Byte) :
    parseF32 (cborF32 x ++ rest) = some (x, rest) := by
  simp only [cborF32, List.cons_append, parseF32]
  rw [expectByte_mkByte 0xfa _ (by norm_num)]
  simp only [Option.bind_eq_bind, Option.some_bind]
  rw [take?_append 4 _ _ (length_natToBytesBE 4 x.val)]
  simp only [Option.some_bind]
  have : mkF32 (bytesToNatBE (natToBytesBE 4 x.val)) = x := by
    have hx : x.val < 256 ^ 4 := by
      have := x.isLt
      norm_num at this ⊢
      omega
    rw [bytesToNatBE_roundtrip 4 x.val hx]
    simp [mkF32, Fin.ext_iff]
  rw [this]
  rfl

theorem parseUuid_cborUuid (u : Uuid) (rest : List Byte) :
    parseUuid (cborUuid u ++ rest) = some (u, rest) := by
  simp only [cborUuid, List.cons_append, parseUuid]
  rw [expectByte_mkByte 0x50 _ (by norm_num)]
  simp only [Option.bind_eq_bind, Option.some_bind]
  rw [take?_append 16 _ _ (length_natToBytesBE 16 u.val)]
  simp only [Option.some_bind]
  have : mkUuid (bytesToNatBE (natToBytesBE 16 u.val)) = u := by
    have hx : u.val < 256 ^ 16 := by
      have := u.isLt
      norm_num at this ⊢
      omega
    rw [bytesToNatBE_roundtrip 16 u.val hx]
    simp [mkUuid, Fin.ext_iff]
  rw [this]
  rfl

theorem parseVector2_cborVector2 (v : Vector2) (rest : List Byte) :
    parseVector2 (cborVector2 v ++ rest) = some (v, rest) := by
  simp only [cborVector2, List.cons_append, List.append_assoc, parseVector2]
  rw [expectByte_mkByte 0xa2 _ (by norm_num)]
  simp only [Option.bind_eq_bind, Option.some_bind]
  rw [parseKeyText_cborText _ _ (by decide)]
  simp only [Option.some_bind]
  rw [parseF32_cborF32]
  simp only [Option.some_bind]
  rw [parseKeyText_cborText _ _ (by decide)]
  simp only [Option.some_bind]
  rw [parseF32_cborF32]
  simp only [Option.some_bind]
  rfl

theorem parseVector3_cborVector3 (v : Vector3) (rest : List Byte) :
    parseVector3 (cborVector3 v ++ rest) = some (v, rest) := by
  simp only [cborVector3, List.cons_append, List.append_assoc, parseVector3]
  rw [expectByte_mkByte 0xa3 _ (by norm_num)]
  simp only [Option.bind_eq_bind, Option.some_bind]
  rw [parseKeyText_cborText _ _ (by decide)]
  simp only [Option.some_bind]
  rw [parseF32_cborF32]
  simp only [Option.some_bind]
  rw [parseKeyText_cborText _ _ (by decide)]
  simp only [Option.some_bind]
  rw [parseF32_cborF32]
  simp only [Option.some_bind]
  rw [parseKeyText_cborText _ _ (by decide)]
  simp only [Option.some_bind]
  rw [parseF32_cborF32]
  simp only [Option.some_bind]
  rfl

theorem parseCircle_cborCircle (c : Circle) (rest : List Byte) :
    parseCircle (cborCircle c ++ rest) = some (c, rest) := by
  simp only [cborCircle, List.cons_append, List.append_assoc, parseCircle]
  rw [expectByte_mkByte 0xa3 _ (by norm_num)]
  simp only [Option.bind_eq_bind, Option.some_bind]
  rw [parseKeyText_cborText _ _ (by decide)]
  simp only [Option.some_bind]
  rw [parseVector2_cborVector2]
  simp only [Option.some_bind]
  rw [parseKeyText_cborText _ _ (by decide)]
  simp only [Option.some_bind]
  rw [parseVector3_cborVector3]
  simp only [Option.some_bind]
  rw [parseKeyText_cborText _ _ (by decide)]
  simp only [Option.some_bind]
  rw [parseF32_cborF32]
  simp only [Option.some_bind]
  rfl

/-! Payload roundtrip: the deserializer inverts the serializer. -/

theorem deserializeC2S_serializeC2S (m : ClientToServerMessage) (rest : List Byte) :
    deserializeC2S (serializeC2S m ++ rest) = some (m, rest) := by
  cases m with
  | Disconnect =>
      simp only [serializeC2S, cborText, List.cons_append, deserializeC2S]
      rw [if_pos (by decide)]
      have hshape : mkByte (0x60 + (str "Disconnect").length) :: (str "Disconnect" ++ rest) =
          cborText (str "Disconnect") ++ rest := by
        simp [cborText]
      rw [hshape, parseText_cborText _ _ (by decide)]
      simp only [Option.bind_eq_bind, Option.some_bind]
      simp
  | Ping =>
      simp only [serializeC2S, cborText, List.cons_append, deserializeC2S]
      rw [if_pos (by decide)]
      have hshape : mkByte (0x60 + (str "Ping").length) :: (str "Ping" ++ rest) =
          cborText (str "Ping") ++ rest := by
        simp [cborText]
      rw [hshape, parseText_cborText _ _ (by decide)]
      simp only [Option.bind_eq_bind, Option.some_bind]
      rw [if_neg (by decide)]
      simp
  | PlayerChanged c =>
      simp only [serializeC2S, List.cons_append, List.append_assoc, deserializeC2S]
      rw [if_neg (by decide), if_pos (by decide)]
      rw [parseText_cborText _ _ (by decide)]
      simp only [Option.bind_eq_bind, Option.some_bind, if_true]
      rw [parseCircle_cborCircle]
      simp only [Option.some_bind]
      rfl

set_option maxHeartbeats 1000000 in
theorem deserializeS2C_serializeS2C (m : ServerToClientMessage) (rest : List Byte) :
    deserializeS2C (serializeS2C m ++ rest) = some (m, rest) := by
  cases m with
  | Handshake u =>
      simp only [serializeS2C, List.cons_append, List.append_assoc, deserializeS2C]
      rw [if_neg (by decide), if_pos (by decide)]
      rw [parseText_cborText _ _ (by decide)]
      simp only [Option.bind_eq_bind, Option.some_bind, if_true]
      rw [parseUuid_cborUuid]
      simp only [Option.some_bind]
      rfl
  | ClientConnected u =>
      simp only [serializeS2C, List.cons_append, List.append_assoc, deserializeS2C]
      rw [if_neg (by decide), if_pos (by decide)]
      rw [parseText_cborText _ _ (by decide)]
      simp only [Option.bind_eq_bind, Option.some_bind, if_true]
      rw [parseUuid_cborUuid]
      simp only [Option.some_bind]
      rfl
  | ClientDisconnected u =>
      simp only [serializeS2C, List.cons_append, List.append_assoc, deserializeS2C]
      rw [if_neg (by decide), if_pos (by decide)]
      rw [parseText_cborText _ _ (by decide)]
      simp only [Option.bind_eq_bind, Option.some_bind, if_true]
      rw [parseUuid_cborUuid]
      simp only [Option.some_bind]
      rfl
  | Ping =>
      simp only [serializeS2C, cborText, List.cons_append, deserializeS2C]
      rw [if_pos (by decide)]
      have hshape : mkByte (0x60 + (str "Ping").length) :: (str "Ping" ++ rest) =
          cborText (str "Ping") ++ rest := by
        simp [cborText]
      rw [hshape, parseText_cborText _ _ (by decide)]
      simp only [Option.bind_eq_bind, Option.some_bind]
      simp only [if_true]
      rfl
  | PlayerChanged u c =>
      simp only [serializeS2C, List.cons_append, List.append_assoc, deserializeS2C]
      rw [if_neg (by decide), if_pos (by decide)]
      rw [parseText_cborText _ _ (by decide)]
      simp only [Option.bind_eq_bind, Option.some_bind, if_true]
      rw [expectByte_mkByte 0x82 _ (by norm_num)]
      rw [Option.some_bind]
      rw [parseUuid_cborUuid]
      rw [Option.some_bind]
      rw [parseCircle_cborCircle]
      rw [Option.some_bind]
      rfl

/-! Payload length bounds: every serialized payload fits a u64 length. -/

theorem length_str (s : String) : (str s).length = s.toList.length := by
  simp [str]

theorem length_cborText (name : List Byte) : (cborText name).length = 1 + name.length := by
  simp [cborText]
  omega

theorem length_cborF32 (x : F32) : (cborF32 x).length = 5 := by
  simp [cborF32, length_natToBytesBE]

theorem length_cborUuid (u : Uuid) : (cborUuid u).length = 17 := by
  simp [cborUuid, length_natToBytesBE]

theorem length_cborVector2 (v : Vector2) : (cborVector2 v).length = 15 := by
  simp [cborVector2, length_cborText, length_cborF32, length_str]

theorem length_cborVector3 (v : Vector3) : (cborVector3 v).length = 22 := by
  simp [cborVector3, length_cborText, length_cborF32, length_str]

theorem length_cborCircle (c : Circle) : (cborCircle c).length = 65 := by
  simp [cborCircle, length_cborText, length_cborF32, length_cborVector2,
    length_cborVector3, length_str]

theorem length_serializeC2S (m : ClientToServerMessage) :
    (serializeC2S m).length ≤ 80 := by
  cases m with
  | Disconnect => decide
  | Ping => decide
  | PlayerChanged c =>
      simp [serializeC2S, length_cborText, length_cborCircle, length_str]

theorem length_serializeS2C (m : ServerToClientMessage) :
    (serializeS2C m).length ≤ 98 := by
  cases m with
  | Handshake u =>
      simp [serializeS2C, length_cborText, length_cborUuid, length_str]
  | ClientConnected u =>
      simp [serializeS2C, length_cborText, length_cborUuid, length_str]
  | ClientDisconnected u =>
      simp [serializeS2C, length_cborText, length_cborUuid, length_str]
  | Ping => decide
  | PlayerChanged u c =>
      simp [serializeS2C, length_cborText, length_cborUuid, length_cborCircle, length_str]

/-! Frame-level lemmas for write_message / read_message. -/

theorem write_message_eq {α : Type} (enc : α → List Byte) (m : α)
    (h : (enc m).length < 2 ^ 64) :
    write_message enc m = some (natToBytesBE 8 (enc m).length ++ enc m) := by
  show (if (enc m).length < 2 ^ 64
      then some (natToBytesBE 8 (enc m).length ++ enc m) else none) = _
  rw [if_pos h]

theorem read_message_frame {α : Type} (dec : List Byte → Option (α × List Byte))
    (payload : List Byte) (m : α) (trail rest : List Byte)
    (hlen : payload.length < 2 ^ 64) (hdec : dec payload = some (m, trail)) :
    read_message dec ((natToBytesBE 8 payload.length ++ payload) ++ rest) =
      .ok (m, rest) := by
  rw [List.append_assoc]
  simp only [read_message, take?_append 8 _ _ (length_natToBytesBE 8 payload.length),
    bytesToNatBE_roundtrip 8 payload.length (by norm_num at hlen ⊢; omega),
    take?_append payload.length payload rest rfl, hdec]

theorem read_message_truncated {α : Type} (dec : List Byte → Option (α × List Byte))
    (payload : List Byte) (k : Nat) (hlen : payload.length < 2 ^ 64)
    (hk : k < 8 + payload.length) :
    read_message dec ((natToBytesBE 8 payload.length ++ payload).take k) =
      (.error .truncated : Except ReadError (α × List Byte)) := by
  by_cases h8 : k < 8
  · have hlen2 : ((natToBytesBE 8 payload.length ++ payload).take k).length < 8 := by
      simp [List.length_take, length_natToBytesBE]
      omega
    simp only [read_message, take?_short 8 _ hlen2]
  · have hsplit : (natToBytesBE 8 payload.length ++ payload).take k =
        natToBytesBE 8 payload.length ++ payload.take (k - 8) := by
      rw [List.take_append_eq_append_take]
      have h1 : (natToBytesBE 8 payload.length).take k = natToBytesBE 8 payload.length := by
        apply List.take_of_length_le
        rw [length_natToBytesBE]
        omega
      rw [h1, length_natToBytesBE]
    have hshort : (payload.take (k - 8)).length < payload.length := by
      simp [List.length_take]
      omega
    rw [hsplit]
    simp only [read_message, take?_append 8 _ _ (length_natToBytesBE 8 payload.length),
      bytesToNatBE_roundtrip 8 payload.length (by norm_num at hlen ⊢; omega),
      take?_short payload.length (payload.take (k - 8)) hshort]

/-! Claim theorems. -/

/-- C1: for every message value m of either message enum, writing m as a frame
with write_message and then reading that frame back with read_message yields
exactly m: decode after encode is the identity. -/
theorem write_read_roundtrip :
    (∀ m : ClientToServerMessage, ∃ frame,
      writeC2S m = some frame ∧ readC2S frame = .ok (m, [])) ∧
    (∀ m : ServerToClientMessage, ∃ frame,
      writeS2C m = some frame ∧ readS2C frame = .ok (m, [])) := by
  constructor
  · intro m
    have hlen : (serializeC2S m).length < 2 ^ 64 :=
      lt_of_le_of_lt (length_serializeC2S m) (by norm_num)
    refine ⟨_, write_message_eq serializeC2S m hlen, ?_⟩
    have h := read_message_frame deserializeC2S (serializeC2S m) m [] [] hlen
      (by simpa using deserializeC2S_serializeC2S m [])
    simpa [readC2S] using h
  · intro m
    have hlen : (serializeS2C m).length < 2 ^ 64 :=
      lt_of_le_of_lt (length_serializeS2C m) (by norm_num)
    refine ⟨_, write_message_eq serializeS2C m hlen, ?_⟩
    have h := read_message_frame deserializeS2C (serializeS2C m) m [] [] hlen
      (by simpa using deserializeS2C_serializeS2C m [])
    simpa [readS2C] using h

/-- C6: for every encoded frame of either message enum and every truncation of
that frame at a byte offset strictly before its end, read_message on the
truncated bytes fails with the stream-truncation error and never returns a
successfully decoded message. -/
theorem truncated_frame_fails :
    (∀ (m : ClientToServerMessage) (frame : List Byte) (k : Nat),
      writeC2S m = some frame → k < frame.length →
      readC2S (frame.take k) = .error .truncated) ∧
    (∀ (m : ServerToClientMessage) (frame : List Byte) (k : Nat),
      writeS2C m = some frame → k < frame.length →
      readS2C (frame.take k) = .error .truncated) := by
  constructor
  · intro m frame k hw hk
    have hlen : (serializeC2S m).length < 2 ^ 64 :=
      lt_of_le_of_lt (length_serializeC2S m) (by norm_num)
    have h2 := hw.symm.trans (write_message_eq serializeC2S m hlen)
    injection h2 with h3
    subst h3
    have hk2 : k < 8 + (serializeC2S m).length := by
      simpa [length_natToBytesBE] using hk
    exact read_message_truncated deserializeC2S (serializeC2S m) k hlen hk2
  · intro m frame k hw hk
    have hlen : (serializeS2C m).length < 2 ^ 64 :=
      lt_of_le_of_lt (length_serializeS2C m) (by norm_num)
    have h2 := hw.symm.trans (write_message_eq serializeS2C m hlen)
    injection h2 with h3
    subst h3
    have hk2 : k < 8 + (serializeS2C m).length := by
      simpa [length_natToBytesBE] using hk
    exact read_message_truncated deserializeS2C (serializeS2C m) k hlen hk2

/-- C6 witness: a concrete Ping frame truncated at offset 3 fails with the
truncation error. -/
theorem truncated_frame_fails_witness :
    readC2S ((natToBytesBE 8 (serializeC2S .Ping).length ++ serializeC2S .Ping).take 3) =
      .error .truncated :=
  truncated_frame_fails.1 .Ping _ 3 (by decide) (by decide)

set_option maxHeartbeats 2000000 in
/-- C7: the remote-role construction reads exactly one frame and requires it to
be Handshake(id); a Handshake frame yields the Client's uuid, and any first
frame that is not a Handshake fails construction with the protocol-violation
error, producing no Client value. -/
theorem connect_requires_handshake :
    (∀ (u : Uuid) (frame rest : List Byte),
      writeS2C (.Handshake u) = some frame →
      connect_handshake (frame ++ rest) = .ok u) ∧
    (∀ (m : ServerToClientMessage) (frame rest : List Byte),
      writeS2C m = some frame → (∀ u : Uuid, m ≠ .Handshake u) →
      connect_handshake (frame ++ rest) = .error .notHandshake) := by
  constructor
  · intro u frame rest hw
    have hlen : (serializeS2C (.Handshake u)).length < 2 ^ 64 :=
      lt_of_le_of_lt (length_serializeS2C _) (by norm_num)
    have h3 := Option.some.inj (hw.symm.trans (write_message_eq serializeS2C _ hlen))
    subst h3
    have hread : readS2C ((natToBytesBE 8 (serializeS2C (.Handshake u)).length ++
        serializeS2C (.Handshake u)) ++ rest) = .ok (.Handshake u, rest) :=
      read_message_frame deserializeS2C (serializeS2C (.Handshake u)) (.Handshake u) [] rest
        hlen (by simpa using deserializeS2C_serializeS2C (.Handshake u) [])
    unfold connect_handshake
    rw [hread]
  · intro m frame rest hw hnh
    have hlen : (serializeS2C m).length < 2 ^ 64 :=
      lt_of_le_of_lt (length_serializeS2C _) (by norm_num)
    have h3 := Option.some.inj (hw.symm.trans (write_message_eq serializeS2C _ hlen))
    subst h3
    have hread : readS2C ((natToBytesBE 8 (serializeS2C m).length ++
        serializeS2C m) ++ rest) = .ok (m, rest) :=
      read_message_frame deserializeS2C (serializeS2C m) m [] rest hlen
        (by simpa using deserializeS2C_serializeS2C m [])
    unfold connect_handshake
    rw [hread]
    cases m with
    | Handshake u => exact absurd rfl (hnh u)
    | ClientConnected u => rfl
    | ClientDisconnected u => rfl
    | Ping => rfl
    | PlayerChanged u c => rfl

/-- C7 witness: a concrete Handshake frame succeeds with its uuid, and a
concrete Ping first frame aborts construction with the protocol violation. -/
theorem connect_requires_handshake_witness :
    connect_handshake ((natToBytesBE 8 (serializeS2C (.Handshake (mkUuid 7))).length ++
        serializeS2C (.Handshake (mkUuid 7))) ++ []) = .ok (mkUuid 7) ∧
    connect_handshake ((natToBytesBE 8 (serializeS2C .Ping).length ++
        serializeS2C .Ping) ++ []) = .error .notHandshake :=
  ⟨connect_requires_handshake.1 (mkUuid 7) _ [] (by decide),
   connect_requires_handshake.2 .Ping _ [] (by decide)
     (fun u h => ServerToClientMessage.noConfusion h)⟩

/-- A concrete circle value used by the C2 analysis. -/
def circle0 : Circle :=
  ⟨⟨mkF32 0, mkF32 0⟩, ⟨mkF32 0, mkF32 0, mkF32 0⟩, mkF32 0⟩

/-- C2, refuted at a concrete input.  The branch guard
`if clients.contains_key(&uuid)` in the relay's select loop is evaluated before
the branch pattern `Some((message, uuid))` is bound (tokio::select!
preconditions cannot see pattern variables), so the `uuid` it tests is
create_local's enclosing local-peer uuid, not the message's sender.  Here the
sender mkUuid 1 is not registered, the guard still enables the branch because
the local peer mkUuid 0 is registered, and the unregistered sender's
PlayerChanged is dispatched and broadcast. -/
theorem stale_sender_dispatched :
    (initState (mkUuid 0)).clients (mkUuid 1) = none ∧
    inboxGuard (initState (mkUuid 0)) = true ∧
    (inboxStep (initState (mkUuid 0)) (.PlayerChanged circle0) (mkUuid 1)).clients
        (mkUuid 0) =
      some [.Handshake (mkUuid 0), .ClientConnected (mkUuid 0),
        .PlayerChanged (mkUuid 1) circle0] := by
  refine ⟨by decide, by decide, ?_⟩
  simp [inboxStep, inboxGuard, handle_message, broadcast, initState]

/-- C3: on a new inbound connection the relay queues Handshake(id) to the fresh
peer before inserting its entry, then broadcasts ClientConnected(id) over the
updated registry including the new peer; consequently the first message the new
peer receives is Handshake(id), and every previously registered peer has
exactly ClientConnected(id) appended. -/
theorem accept_handshake_first (st : RelayState) (fresh : Uuid) :
    (acceptStep st fresh).clients fresh =
      some [.Handshake fresh, .ClientConnected fresh] ∧
    (∀ id, id ≠ fresh → (acceptStep st fresh).clients id =
      (st.clients id).map (fun q => q ++ [.ClientConnected fresh])) ∧
    (∀ q, (acceptStep st fresh).clients fresh = some q →
      q.head? = some (.Handshake fresh)) := by
  have h1 : (acceptStep st fresh).clients fresh =
      some [.Handshake fresh, .ClientConnected fresh] := by
    simp [acceptStep, broadcast]
  refine ⟨h1, ?_, ?_⟩
  · intro id hid
    simp [acceptStep, broadcast, hid]
  · intro q hq
    rw [h1] at hq
    injection hq with h2
    rw [← h2]
    rfl

/-- C3 witness: a concrete accept on the initial relay state. -/
theorem accept_handshake_first_witness :
    (acceptStep (initState (mkUuid 0)) (mkUuid 1)).clients (mkUuid 1) =
      some [.Handshake (mkUuid 1), .ClientConnected (mkUuid 1)] ∧
    (acceptStep (initState (mkUuid 0)) (mkUuid 1)).clients (mkUuid 0) =
      ((initState (mkUuid 0)).clients (mkUuid 0)).map
        (fun q => q ++ [.ClientConnected (mkUuid 1)]) :=
  ⟨(accept_handshake_first (initState (mkUuid 0)) (mkUuid 1)).1,
   (accept_handshake_first (initState (mkUuid 0)) (mkUuid 1)).2.1 (mkUuid 0) (by decide)⟩

/-- C5: dispatching Disconnect for a peer removes that peer's registry entry and
appends ClientDisconnected(id) to exactly the remaining registered entries; the
disconnecting peer gets no event, absent peers stay absent, and every other
entry keeps its queue with just the one event appended. -/
theorem disconnect_removes_and_broadcasts (clients : Registry) (uuid : Uuid) :
    handle_message .Disconnect uuid clients uuid = none ∧
    ∀ id, id ≠ uuid →
      handle_message .Disconnect uuid clients id =
        (clients id).map (fun q => q ++ [.ClientDisconnected uuid]) := by
  constructor
  · simp [handle_message, broadcast]
  · intro id hid
    simp [handle_message, broadcast, hid]

/-- C5 witness: a concrete Disconnect dispatch on the initial registry. -/
theorem disconnect_removes_witness :
    handle_message .Disconnect (mkUuid 0) (initState (mkUuid 0)).clients (mkUuid 0) =
      none ∧
    handle_message .Disconnect (mkUuid 1) (initState (mkUuid 0)).clients (mkUuid 0) =
      ((initState (mkUuid 0)).clients (mkUuid 0)).map
        (fun q => q ++ [.ClientDisconnected (mkUuid 1)]) :=
  ⟨(disconnect_removes_and_broadcasts (initState (mkUuid 0)).clients (mkUuid 0)).1,
   (disconnect_removes_and_broadcasts (initState (mkUuid 0)).clients (mkUuid 1)).2
     (mkUuid 0) (by decide)⟩

/-- C9: dispatching Ping from any peer leaves the registry mapping completely
unchanged and enqueues nothing on any peer's outbound queue. -/
theorem ping_no_effect (uuid : Uuid) (clients : Registry) :
    handle_message .Ping uuid clients = clients :=
  rfl

/-- Invariant of the relay transition system: every registered peer was
assigned at some point (is in the ghost log), and every ClientConnected event
queued for a registered peer names a peer assigned no earlier than the queue's
owner. -/
def RelayInv (x : RelayState × List Uuid) : Prop :=
  (∀ p, ((x.1.clients p).isSome → p ∈ x.2)) ∧
  (∀ p q, x.1.clients p = some q →
    ∀ j, ServerToClientMessage.ClientConnected j ∈ q →
      j ∈ x.2 ∧ x.2.indexOf p ≤ x.2.indexOf j)

theorem relayInv_init (u0 : Uuid) : RelayInv (initState u0, [u0]) := by
  constructor
  · intro p hp
    by_cases h : p = u0
    · simp [h]
    · simp [initState, h] at hp
  · intro p q hq j hj
    by_cases h : p = u0
    · simp [initState, h] at hq
      subst hq
      have hju : j = u0 := by simpa using hj
      simp [hju, h]
    · simp [initState, h] at hq

theorem relayInv_step (x y : RelayState × List Uuid) (hstep : RelayStep x y)
    (hinv : RelayInv x) : RelayInv y := by
  obtain ⟨hmem, hjoin⟩ := hinv
  cases hstep with
  | accept st log fresh hfresh =>
      constructor
      · intro p hp
        simp only [acceptStep, broadcast, Option.isSome_map'] at hp
        by_cases h : p = fresh
        · simp [h]
        · rw [if_neg h] at hp
          exact List.mem_append_left _ (hmem p hp)
      · intro p q hq j hj
        simp only [acceptStep, broadcast] at hq
        rw [Option.map_eq_some'] at hq
        obtain ⟨q0, hq0, rfl⟩ := hq
        by_cases h : p = fresh
        · rw [if_pos h] at hq0
          injection hq0 with h2
          subst h2
          have hjf : j = fresh := by simpa using hj
          exact ⟨by simp [hjf], by simp [h, hjf]⟩
        · rw [if_neg h] at hq0
          have hpmem : p ∈ log := hmem p (by simp [hq0])
          have hidxp : (log ++ [fresh]).indexOf p = log.indexOf p :=
            List.indexOf_append_of_mem hpmem
          rcases List.mem_append.mp hj with hj0 | hj1
          · obtain ⟨hjl, hle⟩ := hjoin p q0 hq0 j hj0
            refine ⟨List.mem_append_left _ hjl, ?_⟩
            rw [hidxp, List.indexOf_append_of_mem hjl]
            exact hle
          · have hjf : j = fresh := by simpa using hj1
            subst hjf
            refine ⟨by simp, ?_⟩
            rw [hidxp, List.indexOf_append_of_not_mem hfresh]
            have hplt : log.indexOf p < log.length := List.indexOf_lt_length.mpr hpmem
            simp
            omega
  | inbox st log message sender =>
      by_cases hg : inboxGuard st
      · cases message with
        | Disconnect =>
            constructor
            · intro p hp
              simp only [inboxStep, hg, if_true, handle_message, broadcast,
                Option.isSome_map'] at hp
              by_cases h : p = sender
              · rw [if_pos h] at hp
                simp at hp
              · rw [if_neg h] at hp
                exact hmem p hp
            · intro p q hq j hj
              simp only [inboxStep, hg, if_true, handle_message, broadcast] at hq
              rw [Option.map_eq_some'] at hq
              obtain ⟨q0, hq0, rfl⟩ := hq
              by_cases h : p = sender
              · rw [if_pos h] at hq0
                exact absurd hq0 (by simp)
              · rw [if_neg h] at hq0
                rcases List.mem_append.mp hj with hj0 | hj1
                · exact hjoin p q0 hq0 j hj0
                · exact absurd hj1 (by simp)
        | Ping =>
            constructor
            · intro p hp
              simp only [inboxStep, hg, if_true, handle_message] at hp
              exact hmem p hp
            · intro p q hq j hj
              simp only [inboxStep, hg, if_true, handle_message] at hq
              exact hjoin p q hq j hj
        | PlayerChanged c =>
            constructor
            · intro p hp
              simp only [inboxStep, hg, if_true, handle_message, broadcast,
                Option.isSome_map'] at hp
              exact hmem p hp
            · intro p q hq j hj
              simp only [inboxStep, hg, if_true, handle_message, broadcast] at hq
              rw [Option.map_eq_some'] at hq
              obtain ⟨q0, hq0, rfl⟩ := hq
              rcases List.mem_append.mp hj with hj0 | hj1
              · exact hjoin p q0 hq0 j hj0
              · exact absurd hj1 (by simp)
      · simp only [inboxStep, hg, if_false]
        exact ⟨hmem, hjoin⟩
  | tick st log =>
      constructor
      · intro p hp
        simp only [tickStep, broadcast, Option.isSome_map'] at hp
        exact hmem p hp
      · intro p q hq j hj
        simp only [tickStep, broadcast] at hq
        rw [Option.map_eq_some'] at hq
        obtain ⟨q0, hq0, rfl⟩ := hq
        rcases List.mem_append.mp hj with hj0 | hj1
        · exact hjoin p q0 hq0 j hj0
        · exact absurd hj1 (by simp)

theorem relayInv_reach (u0 : Uuid) (x : RelayState × List Uuid)
    (h : RelayReach u0 x) : RelayInv x := by
  induction h with
  | refl => exact relayInv_init u0
  | tail hsteps hstep ih => exact relayInv_step _ _ hstep ih

/-- C8: in every reachable relay execution, the join events queued for a
registered peer concern only that peer itself or peers assigned later: the
relay never sends a newly joined peer a ClientConnected event for a peer that
was already registered before it joined. -/
theorem join_events_only_later (u0 : Uuid) (st : RelayState) (log : List Uuid)
    (h : RelayReach u0 (st, log)) (p : Uuid) (q : List ServerToClientMessage)
    (hq : st.clients p = some q) (j : Uuid)
    (hj : ServerToClientMessage.ClientConnected j ∈ q) :
    j = p ∨ log.indexOf p < log.indexOf j := by
  obtain ⟨hmem, hjoin⟩ := relayInv_reach u0 (st, log) h
  have hp : p ∈ log := hmem p (by simp [hq])
  obtain ⟨hjl, hle⟩ := hjoin p q hq j hj
  by_cases hjp : j = p
  · exact Or.inl hjp
  · refine Or.inr (lt_of_le_of_ne hle ?_)
    intro heq
    exact hjp ((List.indexOf_inj hp hjl).mp heq).symm

/-- C8 witness: the invariant evaluated at the initial state. -/
theorem join_events_only_later_witness :
    mkUuid 0 = mkUuid 0 ∨
      [mkUuid 0].indexOf (mkUuid 0) < [mkUuid 0].indexOf (mkUuid 0) :=
  join_events_only_later (mkUuid 0) (initState (mkUuid 0)) [mkUuid 0]
    Relation.ReflTransGen.refl (mkUuid 0)
    [.Handshake (mkUuid 0), .ClientConnected (mkUuid 0)] (by decide)
    (mkUuid 0) (by decide)

/-- C4, refuted at a concrete input: after permanent teardown (channel closed)
with one message still buffered, the first call to get_message returns that
buffered message as Some(Ok(Ping)), not Some(Err(Disconnected)): tokio's
try_recv drains buffered messages before reporting disconnection. -/
theorem poll_after_teardown_counterexample :
    (get_message { buffer := [ServerToClientMessage.Ping], closed := true }).1 =
      some (.ok .Ping) ∧
    (get_message { buffer := [ServerToClientMessage.Ping], closed := true }).1 ≠
      some (.error .mk) := by
  constructor
  · rfl
  · simp [get_message, try_recv]

/-- C4 amended: get_message returns None exactly when nothing is buffered and
the channel is still open, returns each buffered message in arrival order as
Some(Ok(msg)) even after teardown, and returns Some(Err(Disconnected)) on
every call once the channel is torn down and the buffer is drained — a sticky
error state from that point on. -/
theorem get_message_spec (c : InboundChannel) :
    (c.buffer = [] → c.closed = false → get_message c = (none, c)) ∧
    (∀ m rest, c.buffer = m :: rest →
      get_message c = (some (.ok m), { c with buffer := rest })) ∧
    (c.buffer = [] → c.closed = true → get_message c = (some (.error .mk), c)) := by
  refine ⟨?_, ?_, ?_⟩
  · intro hb hc
    simp [get_message, try_recv, hb, hc]
  · intro m rest hb
    simp [get_message, try_recv, hb]
  · intro hb hc
    simp [get_message, try_recv, hb, hc]

/-- C4 witness: the amended specification evaluated on concrete channels. -/
theorem get_message_spec_witness :
    get_message { buffer := [], closed := true } =
      (some (.error .mk), { buffer := [], closed := true }) ∧
    get_message { buffer := [ServerToClientMessage.Ping], closed := true } =
      (some (.ok .Ping), { buffer := [], closed := true }) :=
  ⟨(get_message_spec { buffer := [], closed := true }).2.2 rfl rfl,
   (get_message_spec { buffer := [ServerToClientMessage.Ping], closed := true }).2.1
     .Ping [] rfl⟩

/-- Every pair the relay-side pump forwards to the relay inbox carries the
uuid the relay assigned to that connection, whatever bytes arrive. -/
theorem server_pump_forward_tag_aux (assigned : Uuid) :
    ∀ (n : Nat) (s : List Byte), s.length < n →
      ∀ x ∈ server_pump_forward assigned s, x.2 = assigned := by
  intro n
  induction n with
  | zero =>
      intro s hs
      exact absurd hs (Nat.not_lt_zero _)
  | succ n ih =>
      intro s hs x hx
      rw [server_pump_forward] at hx
      split at hx
      next m rest hr =>
        cases hx with
        | head => rfl
        | tail _ hx2 =>
            have hlt : rest.length < n := by
              have := read_message_rest_length_lt deserializeC2S s m rest hr
              omega
            exact ih rest hlt x hx2
      next e hr =>
        exact absurd hx (by simp)

theorem server_pump_forward_tag (assigned : Uuid) (s : List Byte) :
    ∀ x ∈ server_pump_forward assigned s, x.2 = assigned :=
  server_pump_forward_tag_aux assigned (s.length + 1) s (Nat.lt_succ_self _)

/-- C10: send_message pairs each message with the facade's own uuid, but the
remote connection pump discards that uuid before anything reaches the wire,
and the relay-side pump tags every dispatched message with the uuid the relay
assigned to the connection: two runs differing only in the uuid the facade
attaches produce identical wire bytes and identical relay dispatches, and
every dispatched pair carries the relay-assigned identity. -/
theorem uuid_noninterference (msgs : List ClientToServerMessage)
    (u1 u2 assigned : Uuid) :
    remote_pump_wire (msgs.map (send_message u1)) =
      remote_pump_wire (msgs.map (send_message u2)) ∧
    server_pump_forward assigned (remote_pump_wire (msgs.map (send_message u1))) =
      server_pump_forward assigned (remote_pump_wire (msgs.map (send_message u2))) ∧
    ∀ x ∈ server_pump_forward assigned (remote_pump_wire (msgs.map (send_message u1))),
      x.2 = assigned := by
  have hw : ∀ w : Uuid, remote_pump_wire (msgs.map (send_message w)) =
      (msgs.map frameC2S).flatten := by
    intro w
    have hcomp : ((fun p : ClientToServerMessage × Uuid => frameC2S p.1) ∘
        send_message w) = frameC2S := rfl
    simp only [remote_pump_wire, List.map_map, hcomp]
  refine ⟨by rw [hw, hw], by rw [hw, hw], ?_⟩
  exact server_pump_forward_tag assigned _

/-- C10 witness: a concrete run with two different facade uuids. -/
theorem uuid_noninterference_witness :
    remote_pump_wire ([ClientToServerMessage.Ping].map (send_message (mkUuid 3))) =
      remote_pump_wire ([ClientToServerMessage.Ping].map (send_message (mkUuid 4))) :=
  (uuid_noninterference [.Ping] (mkUuid 3) (mkUuid 4) (mkUuid 5)).1

end Multiplayer
